import Mathlib

/-!
Shallow embedding of the profiling subsystem in `src/util/profiling.h` and
`src/util/profiling.cpp` (profiling support for the viper toolchain).

Modelling conventions:
* machine integers (`unsigned`, `long`) are `Nat`/`Int`; the one place where
  32-bit unsigned wraparound is reachable with in-range data is modelled with
  an explicit `% 2^32`;
* `double` time values are modelled as `ℚ`: every statement about them
  concerns only order comparisons (against the fixed threshold constant or
  against 1), which the rational model reflects faithfully;
* the monotonic clock is passed explicitly: operations that read
  `steady_clock::now()` take the current instant `now : ℤ` (nanoseconds) as an
  argument;
* fallible code (out-of-bounds vector indexing, an assertion failure / UB in
  the C++ vector types) is modelled in `Option`, `none` meaning the run
  crashes.
-/

namespace Z3Profiling

/-- State of `nanostopwatch` (`profiling.h`, lines 40–100): a steady-clock
stopwatch with a lifetime accumulator `m_elapsed` and an independently
resettable window accumulator `m_last_update`.  Instants and durations are
nanosecond counts. -/
structure nanostopwatch where
  m_start : ℤ
  m_elapsed : ℤ
  m_last_update : ℤ
  m_running : Bool
deriving DecidableEq

namespace nanostopwatch

/-- `reset()`: zero both accumulators (start instant and running flag untouched). -/
def reset (s : nanostopwatch) : nanostopwatch :=
  { s with m_elapsed := 0, m_last_update := 0 }

/-- `start()`: record the current instant, unless already running. -/
def start (s : nanostopwatch) (now : ℤ) : nanostopwatch :=
  if s.m_running then s else { s with m_start := now, m_running := true }

/-- `stop()`: if running, add `now - m_start` to both accumulators and mark
not running. -/
def stop (s : nanostopwatch) (now : ℤ) : nanostopwatch :=
  if s.m_running then
    { s with m_elapsed := s.m_elapsed + (now - s.m_start),
             m_last_update := s.m_last_update + (now - s.m_start),
             m_running := false }
  else s

/-- `get_nanoseconds()`: if running, perform the internal `stop(); start();`
(the source mutates through `const_cast`), then return `m_elapsed`.  Returns
the value together with the possibly updated state. -/
def get_nanoseconds (s : nanostopwatch) (now : ℤ) : ℤ × nanostopwatch :=
  let s' := if s.m_running then (s.stop now).start now else s
  (s'.m_elapsed, s')

/-- `get_last_update_nanoseconds()`: the same internal `stop(); start();`,
returning `m_last_update`. -/
def get_last_update_nanoseconds (s : nanostopwatch) (now : ℤ) : ℤ × nanostopwatch :=
  let s' := if s.m_running then (s.stop now).start now else s
  (s'.m_last_update, s')

/-- `reset_last_update()`: zero only the window accumulator. -/
def reset_last_update (s : nanostopwatch) : nanostopwatch :=
  { s with m_last_update := 0 }

end nanostopwatch

/-- The fixed high-time threshold (`profiling.h`, line 127): `0.005` seconds.
The double literal is modelled by the rational it denotes, `5 / 1000`
(written via `mkRat` so that the constant evaluates by kernel reduction);
only order comparisons against it occur. -/
def high_time_threshold : ℚ := mkRat 5 1000

/-- Mutable state of the `profiling` class touched by the modelled member
functions.  Stopwatch readings are passed into `scope_update` explicitly
(they come from the real clock), so the stopwatch objects themselves are not
part of this record.  `file_open` models the output-stream resource owned by
the constructor/destructor. -/
structure profiling where
  backtracking_nodes : List ℕ
  high_time_nodes_total : List (ℕ × ℚ)
  mam_high_time_nodes : List (ℕ × ℚ)
  currentNode : ℕ
  mam_total_loop_itrs : ℕ
  entered_mam_loop : Bool
  mam_high_time_count : ℕ
  high_time_count_total : ℕ
  mam_case_counters : List ℕ
  file_open : Bool
deriving DecidableEq

/-- Fresh state as produced by the in-class initialisers and the constructor
(`profiling.h` lines 122–142, `profiling.cpp` lines 34–36). -/
def profiling.init : profiling :=
  { backtracking_nodes := [], high_time_nodes_total := [], mam_high_time_nodes := [],
    currentNode := 0, mam_total_loop_itrs := 0, entered_mam_loop := false,
    mam_high_time_count := 0, high_time_count_total := 0,
    mam_case_counters := List.replicate 38 0, file_open := true }

/-- Modelled from the spec: `add_high_time_node_total` is called at
`profiling.cpp` line 63 but its definition is not under `src/`; per spec §3
the high-cost set is the node-ordered filtered projection of the node
records, and the correlation pass (lines 188–197) reads the entries as
`(node, seconds)` tuples in insertion order, so the call appends the pair. -/
def add_high_time_node_total (s : profiling) (node : ℕ) (seconds : ℚ) : profiling :=
  { s with high_time_nodes_total := s.high_time_nodes_total ++ [(node, seconds)] }

/-- Modelled from the spec: `add_mam_high_time_node` (`profiling.cpp` line 67)
is likewise not defined under `src/`; it appends the `(node, seconds)` pair to
`mam_high_time_nodes`, which is read positionally at lines 193–211. -/
def add_mam_high_time_node (s : profiling) (node : ℕ) (seconds : ℚ) : profiling :=
  { s with mam_high_time_nodes := s.mam_high_time_nodes ++ [(node, seconds)] }

/-- `add_backtracking_node` (`profiling.h` line 165): push the node id. -/
def add_backtracking_node (s : profiling) (node : ℕ) : profiling :=
  { s with backtracking_nodes := s.backtracking_nodes ++ [node] }

/-- `scope_update` (`profiling.cpp` lines 50–79).  `currSeconds` and
`currMamSeconds` are the values read from `node_total_stopwatch.get_seconds()`
and `mam_stopwatch.get_seconds()` at this call; the trailing stopwatch
reset/start calls touch only the external clocks.  The `scope` argument is
accepted and unused, as in the source (the code using it is commented out). -/
def scope_update (s : profiling) (scope : ℕ) (currSeconds currMamSeconds : ℚ) : profiling :=
  let s1 :=
    if currSeconds ≥ high_time_threshold then
      let s' := add_high_time_node_total
        { s with high_time_count_total := s.high_time_count_total + 1 } s.currentNode currSeconds
      if s.entered_mam_loop ∧ currMamSeconds ≥ high_time_threshold then
        add_mam_high_time_node
          { s' with mam_high_time_count := s'.mam_high_time_count + 1 } s.currentNode currMamSeconds
      else s'
    else s
  { s1 with currentNode := s1.currentNode + 1, entered_mam_loop := false }

/-- `backtracking_update` (`profiling.cpp` lines 87–97): record the current
node as a backtracking node, then perform the scope transition.  `num_scopes`
is accepted and unused (the trace that used it is commented out). -/
def backtracking_update (s : profiling) (num_scopes new_lvl : ℕ)
    (currSeconds currMamSeconds : ℚ) : profiling :=
  scope_update (add_backtracking_node s s.currentNode) new_lvl currSeconds currMamSeconds

/-- `setup_mam` (`profiling.cpp` lines 229–232): set the flag (the mam
stopwatch start touches only the external clock). -/
def setup_mam (s : profiling) : profiling := { s with entered_mam_loop := true }

/-- `mam_loop_update` (`profiling.cpp` lines 234–236). -/
def mam_loop_update (s : profiling) : profiling :=
  { s with mam_total_loop_itrs := s.mam_total_loop_itrs + 1 }

/-- `set_mam_loop_counters` (`profiling.h` line 190): increment the opcode
bucket.  The C++ indexing is unchecked; callers pass enum values below the
vector's fixed size 38, modelled with an in-range update that is a no-op out
of range. -/
def set_mam_loop_counters (s : profiling) (enumCase : ℕ) : profiling :=
  { s with mam_case_counters :=
      s.mam_case_counters.set enumCase (s.mam_case_counters.getD enumCase 0 + 1) }

/-- The destructor (`profiling.cpp` lines 38–44): close and release the
output stream; no record state is touched. -/
def profiling_destructor (s : profiling) : profiling := { s with file_open := false }

/-- One inbound hook invocation from the host search procedure, carrying the
stopwatch readings the call observes. -/
inductive HookCall where
  | scopeUpdate (scope : ℕ) (currSeconds currMamSeconds : ℚ)
  | backtrackingUpdate (num_scopes new_lvl : ℕ) (currSeconds currMamSeconds : ℚ)
  | setupMam
  | mamLoopUpdate
  | exitMam
  | setMamLoopCounters (enumCase : ℕ)

/-- Dispatch one hook call (`exit_mam` stops only the external stopwatch). -/
def runCall (s : profiling) : HookCall → profiling
  | .scopeUpdate sc cs cms => scope_update s sc cs cms
  | .backtrackingUpdate n l cs cms => backtracking_update s n l cs cms
  | .setupMam => setup_mam s
  | .mamLoopUpdate => mam_loop_update s
  | .exitMam => s
  | .setMamLoopCounters i => set_mam_loop_counters s i

/-- Run a sequence of hook calls from a state. -/
def runCalls (s : profiling) (calls : List HookCall) : profiling :=
  calls.foldl runCall s

/-- The hooks that advance the node counter (`scope_update` and
`backtracking_update`). -/
def isNodeHook : HookCall → Bool
  | .scopeUpdate .. => true
  | .backtrackingUpdate .. => true
  | _ => false

/-- `sum_mam_high_time_nodes` (`profiling.cpp` lines 145–151). -/
def sum_mam_high_time_nodes (s : profiling) : ℚ :=
  s.mam_high_time_nodes.foldl (fun sum e => sum + e.2) 0

/-- `collect_statistics` (`profiling.cpp` lines 135–143): the four named
updates pushed into the statistics sink, in call order.  (The function then
writes the mam-loop histogram and the correlation report to the output file;
those are modelled by `mam_loop_output` and
`high_time_backtracking_distance`.) -/
def collect_statistics (s : profiling) : List (String × ℚ) :=
  [("mam high time count", (s.mam_high_time_count : ℚ)),
   ("high time count total", (s.high_time_count_total : ℚ)),
   ("max node", (s.currentNode : ℚ)),
   ("cumulative mam high time", sum_mam_high_time_nodes s)]

/-- The static opcode name table (`profiling.cpp` lines 24–32), 38 entries. -/
def opcode_names : List String :=
  ["INIT1", "INIT2", "INIT3", "INIT4", "INIT5", "INIT6", "INITN",
   "BIND1", "BIND2", "BIND3", "BIND4", "BIND5", "BIND6", "BINDN",
   "YIELD1", "YIELD2", "YIELD3", "YIELD4", "YIELD5", "YIELD6", "YIELDN",
   "COMPARE", "CHECK", "FILTER", "CFILTER", "PFILTER", "CHOOSE", "NOOP", "CONTINUE",
   "GET_ENODE",
   "GET_CGR1", "GET_CGR2", "GET_CGR3", "GET_CGR4", "GET_CGR5", "GET_CGR6", "GET_CGRN",
   "IS_CGR"]

/-- One line of the text reports written by `mam_loop_output` and
`high_time_backtracking_distance`.  The final min-dist section is carried as
the association list of the hash map in first-insertion order: the C++
prints it sorted by descending count, but iteration order of the underlying
`unordered_map` (hence the order among equal counts) is unspecified, so the
model keeps the map's contents rather than one arbitrary linearisation. -/
inductive OutLine where
  | mamHeader (iterations : ℕ)
  | opcodeLine (index : ℕ) (name : String) (count : ℕ) (percent : ℚ)
  | header (nBack nMam nTotal : ℕ) (threshold : ℚ)
  | singleLine (node : ℕ) (dist : ℕ) (time : ℚ)
  | nodeLine (node : ℕ) (dist : ℤ) (time : ℚ) (mamInfo : Option (ℚ × ℚ))
  | minDistCounts (counts : List (ℤ × ℕ))
deriving DecidableEq

/-- `mam_loop_output` (`profiling.cpp` lines 106–128), as the sequence of
lines written: the iteration-count line, then, for each opcode index (the
loop runs over `mam_case_counters`, whose fixed size matches the 38-entry
name table), a line exactly when the total is positive and the opcode's
percentage share strictly exceeds 1.  The division is guarded by
`mam_total_loop_itrs > 0` exactly as in the source. -/
def mam_loop_output (mam_total_loop_itrs : ℕ) (mam_case_counters : List ℕ) : List OutLine :=
  OutLine.mamHeader mam_total_loop_itrs ::
    (List.range mam_case_counters.length).filterMap (fun i =>
      if 0 < mam_total_loop_itrs then
        let percent : ℚ := ((mam_case_counters.getD i 0 : ℚ) / (mam_total_loop_itrs : ℚ)) * 100
        if 1 < percent then
          some (OutLine.opcodeLine i (opcode_names.getD i "") (mam_case_counters.getD i 0) percent)
        else none
      else none)

/-- 32-bit unsigned subtraction `a - b` (the singleton edge case at
`profiling.cpp` line 175 subtracts two `unsigned` values, which wraps). -/
def usub32 (a b : ℕ) : ℕ :=
  (a % 4294967296 + (4294967296 - b % 4294967296)) % 4294967296

/-- The singleton edge-case lines (`profiling.cpp` lines 171–177): one line
per `mam_high_time_nodes` entry with the unsigned distance to the unique
backtracking node. -/
def singleton_report (b0 : ℕ) (mam : List (ℕ × ℚ)) : List OutLine :=
  mam.map (fun e => OutLine.singleLine e.1 (usub32 e.1 b0) e.2)

/-- The mam cursor advance (`profiling.cpp` lines 193–197):
`while (mam_index < mam_size && mam_curr_node < h) { mam_curr_node = get<0>(mam[mam_index]); mam_index++; }`.
The cursor is carried as the not-yet-consumed suffix (`mam.drop mam_index`)
together with the most recently consumed entry (`mam[mam_index - 1]`, `none`
while `mam_index == 0`). -/
def advanceMam (h : ℕ) : ℕ → Option (ℕ × ℚ) → List (ℕ × ℚ) → ℕ × Option (ℕ × ℚ) × List (ℕ × ℚ)
  | mcurr, mlast, [] => (mcurr, mlast, [])
  | mcurr, mlast, e :: rest =>
    if mcurr < h then advanceMam h e.1 (some e) rest else (mcurr, mlast, e :: rest)

/-- The backtracking cursor advance (`profiling.cpp` lines 199–203):
`while (curr < h && back_index < size) { prev = curr; curr = B[back_index]; back_index++; }`.
The cursor is carried as `(prev, curr, B.drop back_index)`. -/
def advanceBack (h : ℕ) : ℕ → ℕ → List ℕ → ℕ × ℕ × List ℕ
  | prev, curr, [] => (prev, curr, [])
  | prev, curr, b :: rest =>
    if curr < h then advanceBack h curr b rest else (prev, curr, b :: rest)

/-- `min_dist_counts[min_dist]++` on the association list. -/
def bumpCount : List (ℤ × ℕ) → ℤ → List (ℤ × ℕ)
  | [], d => [(d, 1)]
  | (k, n) :: rest, d => if k = d then (k, n + 1) :: rest else (k, n) :: bumpCount rest d

/-- Loop state of the main pass of `high_time_backtracking_distance`
(`profiling.cpp` lines 180–218). -/
structure CorrCursor where
  prev : ℕ
  curr : ℕ
  backRem : List ℕ
  mamCurr : ℕ
  mamLast : Option (ℕ × ℚ)
  mamRem : List (ℕ × ℚ)
  counts : List (ℤ × ℕ)
deriving DecidableEq

/-- The main pass (`profiling.cpp` lines 188–218): one iteration per
`high_time_nodes_total` entry.  `none` models the out-of-bounds read
`mam_high_time_nodes[mam_index - 1]` that the source performs when
`mam_curr_node == high_time_node` while `mam_index == 0` (the unsigned index
wraps to `2^32 - 1`, past the end of any vector). -/
def corrLoop : CorrCursor → List (ℕ × ℚ) → Option (List OutLine × List (ℤ × ℕ))
  | cu, [] => some ([], cu.counts)
  | cu, e :: rest =>
    let am := advanceMam e.1 cu.mamCurr cu.mamLast cu.mamRem
    let ab := advanceBack e.1 cu.prev cu.curr cu.backRem
    let back_dist : ℤ := (e.1 : ℤ) - (ab.1 : ℤ)
    let front_dist : ℤ := (e.1 : ℤ) - (ab.2.1 : ℤ)
    let min_dist : ℤ := if back_dist.natAbs < front_dist.natAbs then back_dist else front_dist
    let next : CorrCursor :=
      ⟨ab.1, ab.2.1, ab.2.2, am.1, am.2.1, am.2.2, bumpCount cu.counts min_dist⟩
    if am.1 = e.1 then
      match am.2.1 with
      | none => none
      | some me =>
        match corrLoop next rest with
        | none => none
        | some (ls, cnts) =>
          some (OutLine.nodeLine e.1 min_dist e.2 (some (me.2, me.2 / e.2)) :: ls, cnts)
    else
      match corrLoop next rest with
      | none => none
      | some (ls, cnts) => some (OutLine.nodeLine e.1 min_dist e.2 none :: ls, cnts)

/-- `high_time_backtracking_distance` (`profiling.cpp` lines 158–227), as the
sequence of lines it writes, or `none` if the run reaches an out-of-bounds
vector read.  With an empty backtracking vector it returns before writing
anything (line 159).  With exactly one backtracking node it writes the header
and the singleton edge-case lines and then unconditionally reads
`backtracking_nodes[1]` (line 181), which is out of bounds, so the run is
`none`. -/
def high_time_backtracking_distance (backtracking_nodes : List ℕ)
    (high_time_nodes_total mam_high_time_nodes : List (ℕ × ℚ))
    (high_time_count_total : ℕ) : Option (List OutLine) :=
  match backtracking_nodes with
  | [] => some []
  | b0 :: btail =>
    let hdr := OutLine.header (b0 :: btail).length mam_high_time_nodes.length
      high_time_count_total high_time_threshold
    let singles : List OutLine :=
      if btail.isEmpty then singleton_report b0 mam_high_time_nodes else []
    match btail with
    | [] => none
    | b1 :: brest =>
      match corrLoop ⟨b0, b1, brest, 0, none, mam_high_time_nodes, []⟩ high_time_nodes_total with
      | none => none
      | some (ls, cnts) => some (hdr :: (singles ++ ls ++ [OutLine.minDistCounts cnts]))

/-- Projection of a report to its per-node correlation lines:
`(node, min_dist, total_time)` triples in output order. -/
def nodeDists : List OutLine → List (ℕ × ℤ × ℚ)
  | [] => []
  | OutLine.nodeLine n d t _ :: rest => (n, d, t) :: nodeDists rest
  | _ :: rest => nodeDists rest

/-- `d` is a signed distance from `h` to a nearest element of `B` (what a
brute-force nearest-neighbour scan returns), with equal absolute distances
resolved towards the larger neighbour (the successor, i.e. `front_dist`). -/
def isNearestFront (B : List ℕ) (h : ℕ) (d : ℤ) : Prop :=
  (∃ b ∈ B, d = (h : ℤ) - (b : ℤ)) ∧
  (∀ b ∈ B, d.natAbs ≤ ((h : ℤ) - (b : ℤ)).natAbs) ∧
  (∀ b ∈ B, ((h : ℤ) - (b : ℤ)).natAbs = d.natAbs → d ≤ (h : ℤ) - (b : ℤ))

/-- Bookkeeping invariant on the record state, maintained by every hook call:
the total high-time records carry strictly increasing node ids below the node
counter, there are no more records than nodes, the matching-loop high-time
node ids form a sublist of the total high-time node ids, and the two counters
are ordered. -/
def RecInv (s : profiling) : Prop :=
  (s.high_time_nodes_total.map Prod.fst).Pairwise (· < ·) ∧
  (∀ n ∈ s.high_time_nodes_total.map Prod.fst, n < s.currentNode) ∧
  s.high_time_nodes_total.length ≤ s.currentNode ∧
  (s.mam_high_time_nodes.map Prod.fst).Sublist (s.high_time_nodes_total.map Prod.fst) ∧
  s.mam_high_time_count ≤ s.high_time_count_total

/-! ## Theorems -/

/-- C8: for the elapsed-time accumulator, calling `start()` twice in a row has
the same observable effect on all state (running flag, start instant, total
and window accumulators) as calling it once, and likewise calling `stop()`
twice in a row has the same observable effect as calling it once. -/
theorem stopwatch_start_stop_idempotent (s : nanostopwatch) (t1 t2 : ℤ) :
    (s.start t1).start t2 = s.start t1 ∧ (s.stop t1).stop t2 = s.stop t1 := by
  constructor <;> cases hr : s.m_running <;>
    simp [nanostopwatch.start, nanostopwatch.stop, hr]

/-- C9 (amended): `reset_window()` (`reset_last_update`) never changes the
value returned by `read_total()` (`get_nanoseconds`); and if the watch is not
running, after `reset_window()` a `read_window()` (`get_last_update_nanoseconds`)
returns zero and leaves the state unchanged, so it stays zero until further
`start`/`stop` activity.  (On a running watch the read folds in the open
interval since the last start and can return a nonzero value.) -/
theorem reset_window_total_preserved (s : nanostopwatch) (now : ℤ) :
    (s.reset_last_update.get_nanoseconds now).1 = (s.get_nanoseconds now).1 ∧
    (s.m_running = false →
      s.reset_last_update.get_last_update_nanoseconds now = (0, s.reset_last_update)) := by
  constructor
  · cases hr : s.m_running <;>
      simp [nanostopwatch.get_nanoseconds, nanostopwatch.reset_last_update,
            nanostopwatch.stop, nanostopwatch.start, hr]
  · intro hr
    simp [nanostopwatch.get_last_update_nanoseconds, nanostopwatch.reset_last_update, hr]

/-- C9 counterexample: on a running watch (started at instant 0), after
`reset_window()` a `read_window()` at instant 5 returns 5, not 0, although no
`start`/`stop` call intervened. -/
theorem reset_window_counterexample :
    ((nanostopwatch.mk 0 0 7 true).reset_last_update.get_last_update_nanoseconds 5).1 = 5 ∧
    (5 : ℤ) ≠ 0 := by
  exact ⟨rfl, by decide⟩

/-- C9 witness: a concrete non-running watch for which the reset-window
read returns zero and preserves the state. -/
theorem reset_window_witness :
    (nanostopwatch.mk 0 3 7 false).m_running = false ∧
    (nanostopwatch.mk 0 3 7 false).reset_last_update.get_last_update_nanoseconds 5 =
      (0, (nanostopwatch.mk 0 3 7 false).reset_last_update) :=
  ⟨rfl, (reset_window_total_preserved (nanostopwatch.mk 0 3 7 false) 5).2 rfl⟩

/-- C4 (amended): the scope-transition update classifies a node as high-cost
(incrementing `high_time_count_total` and appending the record) if and only
if its measured total time is greater than **or equal to** the threshold
constant `0.005`; a node whose time equals the threshold exactly is counted.
The matching-loop counter likewise increments iff additionally the loop was
entered and the mam time is `≥` the threshold. -/
theorem high_cost_iff_ge_threshold (s : profiling) (scope : ℕ) (cs cms : ℚ) :
    (scope_update s scope cs cms).high_time_count_total =
      s.high_time_count_total + (if cs ≥ high_time_threshold then 1 else 0) ∧
    (scope_update s scope cs cms).high_time_nodes_total =
      s.high_time_nodes_total ++
        (if cs ≥ high_time_threshold then [(s.currentNode, cs)] else []) ∧
    (scope_update s scope cs cms).mam_high_time_count =
      s.mam_high_time_count +
        (if cs ≥ high_time_threshold ∧ s.entered_mam_loop ∧ cms ≥ high_time_threshold
         then 1 else 0) := by
  unfold scope_update add_high_time_node_total add_mam_high_time_node
  split_ifs <;> simp_all

/-- C4 counterexample: a node whose total time equals the threshold exactly is
classified high-cost by the code (the comparison at `profiling.cpp` line 61 is
`>=`), while strict excess over the threshold fails at that point. -/
theorem threshold_boundary_counterexample :
    (scope_update profiling.init 0 high_time_threshold 0).high_time_count_total = 1 ∧
    ¬ (high_time_threshold > high_time_threshold) := by
  exact ⟨by decide, lt_irrefl _⟩

/-- All record-relevant effects of one `scope_update` call, in one place. -/
lemma scope_update_fields (s : profiling) (scope : ℕ) (cs cms : ℚ) :
    (scope_update s scope cs cms).currentNode = s.currentNode + 1 ∧
    (scope_update s scope cs cms).high_time_nodes_total =
      s.high_time_nodes_total ++
        (if cs ≥ high_time_threshold then [(s.currentNode, cs)] else []) ∧
    (scope_update s scope cs cms).mam_high_time_nodes =
      s.mam_high_time_nodes ++
        (if cs ≥ high_time_threshold ∧ s.entered_mam_loop ∧ cms ≥ high_time_threshold
         then [(s.currentNode, cms)] else []) ∧
    (scope_update s scope cs cms).mam_high_time_count =
      s.mam_high_time_count +
        (if cs ≥ high_time_threshold ∧ s.entered_mam_loop ∧ cms ≥ high_time_threshold
         then 1 else 0) ∧
    (scope_update s scope cs cms).high_time_count_total =
      s.high_time_count_total + (if cs ≥ high_time_threshold then 1 else 0) := by
  unfold scope_update add_high_time_node_total add_mam_high_time_node
  split_ifs <;> simp_all

/-- `RecInv` is preserved by `scope_update`, which advances the node counter. -/
lemma recInv_scope_update (s : profiling) (scope : ℕ) (cs cms : ℚ) (h : RecInv s) :
    RecInv (scope_update s scope cs cms) := by
  obtain ⟨hpw, hlt, hlen, hsub, hcnt⟩ := h
  obtain ⟨hc, ht, hm, hmc, htc⟩ := scope_update_fields s scope cs cms
  refine ⟨?_, ?_, ?_, ?_, ?_⟩
  · rw [ht]
    by_cases hB : cs ≥ high_time_threshold
    · rw [if_pos hB, List.map_append, List.pairwise_append]
      refine ⟨hpw, by simp, ?_⟩
      intro a ha b hb
      simp at hb
      subst hb
      exact hlt a ha
    · rw [if_neg hB, List.append_nil]
      exact hpw
  · rw [ht, hc]
    by_cases hB : cs ≥ high_time_threshold
    · rw [if_pos hB]
      intro n hn
      rw [List.map_append] at hn
      rcases List.mem_append.1 hn with hn | hn
      · exact Nat.lt_succ_of_lt (hlt n hn)
      · simp at hn
        omega
    · rw [if_neg hB, List.append_nil]
      intro n hn
      exact Nat.lt_succ_of_lt (hlt n hn)
  · rw [ht, hc]
    by_cases hB : cs ≥ high_time_threshold
    · rw [if_pos hB, List.length_append]
      simp
      omega
    · rw [if_neg hB, List.append_nil]
      omega
  · rw [ht, hm]
    by_cases hA : cs ≥ high_time_threshold ∧ s.entered_mam_loop ∧ cms ≥ high_time_threshold
    · rw [if_pos hA, if_pos hA.1, List.map_append, List.map_append]
      exact hsub.append (by simp)
    · rw [if_neg hA, List.append_nil]
      by_cases hB : cs ≥ high_time_threshold
      · rw [if_pos hB, List.map_append]
        exact hsub.trans (List.sublist_append_left _ _)
      · rw [if_neg hB, List.append_nil]
        exact hsub
  · rw [hmc, htc]
    by_cases hA : cs ≥ high_time_threshold ∧ s.entered_mam_loop ∧ cms ≥ high_time_threshold
    · rw [if_pos hA, if_pos hA.1]
      omega
    · rw [if_neg hA]
      by_cases hB : cs ≥ high_time_threshold
      · rw [if_pos hB]
        omega
      · rw [if_neg hB]
        omega

/-- `RecInv` is preserved by every hook call, and the node counter advances by
one exactly on the two node hooks. -/
lemma recInv_runCall (s : profiling) (c : HookCall) (h : RecInv s) :
    RecInv (runCall s c) ∧
    (runCall s c).currentNode = s.currentNode + (if isNodeHook c then 1 else 0) := by
  cases c with
  | scopeUpdate sc cs cms =>
    exact ⟨recInv_scope_update s sc cs cms h,
      by simpa [runCall, isNodeHook] using (scope_update_fields s sc cs cms).1⟩
  | backtrackingUpdate n l cs cms =>
    have hb : RecInv (add_backtracking_node s s.currentNode) := by
      obtain ⟨hpw, hlt, hlen, hsub, hcnt⟩ := h
      exact ⟨hpw, hlt, hlen, hsub, hcnt⟩
    refine ⟨recInv_scope_update _ l cs cms hb, ?_⟩
    have := (scope_update_fields (add_backtracking_node s s.currentNode) l cs cms).1
    simpa [runCall, backtracking_update, isNodeHook, add_backtracking_node] using this
  | setupMam => exact ⟨h, by simp [runCall, setup_mam, isNodeHook]⟩
  | mamLoopUpdate => exact ⟨h, by simp [runCall, mam_loop_update, isNodeHook]⟩
  | exitMam => exact ⟨h, by simp [runCall, isNodeHook]⟩
  | setMamLoopCounters i => exact ⟨h, by simp [runCall, set_mam_loop_counters, isNodeHook]⟩

/-- `RecInv` holds along any run, and the node counter counts the node hooks. -/
lemma recInv_runCalls (calls : List HookCall) : ∀ s : profiling, RecInv s →
    RecInv (runCalls s calls) ∧
    (runCalls s calls).currentNode = s.currentNode + calls.countP isNodeHook := by
  induction calls with
  | nil => intro s hs; simpa [runCalls] using hs
  | cons c rest ih =>
    intro s hs
    obtain ⟨h1, h2⟩ := recInv_runCall s c hs
    obtain ⟨h3, h4⟩ := ih (runCall s c) h1
    have hrc : runCalls s (c :: rest) = runCalls (runCall s c) rest := by
      simp [runCalls]
    refine ⟨by rwa [hrc], ?_⟩
    rw [hrc, h4, h2, List.countP_cons]
    by_cases hni : isNodeHook c <;> simp [hni] <;> omega

/-- The initial state satisfies the record invariant. -/
lemma recInv_init : RecInv profiling.init := by
  refine ⟨?_, ?_, ?_, ?_, ?_⟩ <;> simp [profiling.init]

/-- C5 (amended): for N calls to the scope-transition and backtracking hooks
combined (in any mix with the other hooks), the node counter advances from 0
to N by exactly one per node hook; the records produced carry strictly
increasing node ids and number at most N — a record is appended only for a
node whose measured time reaches the high-time threshold — and teardown (the
destructor) synthesizes no additional record. -/
theorem node_counter_and_records (calls : List HookCall) :
    (runCalls profiling.init calls).currentNode = calls.countP isNodeHook ∧
    ((runCalls profiling.init calls).high_time_nodes_total.map Prod.fst).Pairwise (· < ·) ∧
    (runCalls profiling.init calls).high_time_nodes_total.length ≤ calls.countP isNodeHook ∧
    (profiling_destructor (runCalls profiling.init calls)).high_time_nodes_total =
      (runCalls profiling.init calls).high_time_nodes_total := by
  obtain ⟨⟨hpw, hlt, hlen, hsub, hcnt⟩, hnode⟩ := recInv_runCalls calls profiling.init recInv_init
  have h0 : (runCalls profiling.init calls).currentNode = calls.countP isNodeHook := by
    simpa [profiling.init] using hnode
  exact ⟨h0, hpw, h0 ▸ hlen, rfl⟩

/-- C5 counterexample: one scope-transition call whose node time is below the
threshold produces zero Node Runtime Records (not one), and teardown adds
none (not one more): the destructor only closes the file stream. -/
theorem node_records_counterexample :
    (runCalls profiling.init [HookCall.scopeUpdate 0 0 0]).currentNode = 1 ∧
    (runCalls profiling.init [HookCall.scopeUpdate 0 0 0]).high_time_nodes_total = [] ∧
    (profiling_destructor
        (runCalls profiling.init [HookCall.scopeUpdate 0 0 0])).high_time_nodes_total = [] ∧
    (0 : ℕ) ≠ 1 := by
  exact ⟨by decide, by decide, by decide, by decide⟩

/-- C10: along every sequence of hook calls, a node is recorded as a
matching-loop high-time node only if it is also recorded as a total high-time
node — the matching-loop high-time node-id sequence is a sublist of the total
one — and `mam_high_time_count ≤ high_time_count_total`. -/
theorem mam_subset_total_invariant (calls : List HookCall) :
    ((runCalls profiling.init calls).mam_high_time_nodes.map Prod.fst).Sublist
      ((runCalls profiling.init calls).high_time_nodes_total.map Prod.fst) ∧
    (runCalls profiling.init calls).mam_high_time_count ≤
      (runCalls profiling.init calls).high_time_count_total := by
  obtain ⟨⟨hpw, hlt, hlen, hsub, hcnt⟩, hnode⟩ := recInv_runCalls calls profiling.init recInv_init
  exact ⟨hsub, hcnt⟩

/-- C6 (amended): the statistics-collection operation pushes exactly four
named values into the metrics sink — the matching-loop high-cost count, the
overall high-cost count, the maximum node id reached, and the cumulative
matching-loop high-cost time; no per-phase cumulative times are reported. -/
theorem collect_statistics_names (s : profiling) :
    (collect_statistics s).map Prod.fst =
      ["mam high time count", "high time count total", "max node",
       "cumulative mam high time"] := rfl

/-- C6 counterexample: the update list has exactly these four entries —
length 4 — so it cannot contain the five-plus categories the claim lists (in
particular, no per-phase cumulative-time update exists). -/
theorem collect_statistics_counterexample :
    (collect_statistics profiling.init).map Prod.fst =
      ["mam high time count", "high time count total", "max node",
       "cumulative mam high time"] ∧
    (collect_statistics profiling.init).length = 4 := ⟨rfl, rfl⟩

/-- Strict 1% share comparison, in rationals. -/
lemma one_lt_share_iff (c t : ℕ) (ht : 0 < t) :
    (1 : ℚ) < ((c : ℚ) / (t : ℚ)) * 100 ↔ t < 100 * c := by
  rw [div_mul_eq_mul_div, lt_div_iff (by exact_mod_cast ht), one_mul, mul_comm]
  exact_mod_cast Iff.rfl

/-- C7: in the opcode-histogram report an opcode line for index `i` is
emitted iff the total iteration count is positive and the opcode's share of
it strictly exceeds 1% (`100 * count > total`); in particular an opcode with
exactly a 1% share is suppressed, and with a zero total the guarded division
is never performed and no opcode line is emitted (only the iteration-count
header appears). -/
theorem histogram_emission_policy (total : ℕ) (counters : List ℕ) :
    (∀ i, i < counters.length →
      ((∃ c p, OutLine.opcodeLine i (opcode_names.getD i "") c p ∈
          mam_loop_output total counters) ↔
        (0 < total ∧ total < 100 * counters.getD i 0))) ∧
    mam_loop_output 0 counters = [OutLine.mamHeader 0] := by
  constructor
  · intro i hi
    constructor
    · rintro ⟨c, p, hmem⟩
      simp only [mam_loop_output, List.mem_cons] at hmem
      rcases hmem with h | hmem
      · simp at h
      · rw [List.mem_filterMap] at hmem
        obtain ⟨j, hj, hfj⟩ := hmem
        by_cases htot : 0 < total
        · rw [if_pos htot] at hfj
          by_cases hpct : (1 : ℚ) < ((counters.getD j 0 : ℚ) / (total : ℚ)) * 100
          · rw [if_pos hpct] at hfj
            rw [Option.some_inj] at hfj
            injection hfj with h1 h2 h3 h4
            subst h1
            exact ⟨htot, (one_lt_share_iff _ _ htot).1 hpct⟩
          · rw [if_neg hpct] at hfj
            simp at hfj
        · rw [if_neg htot] at hfj
          simp at hfj
    · rintro ⟨htot, hshare⟩
      refine ⟨counters.getD i 0, ((counters.getD i 0 : ℚ) / (total : ℚ)) * 100, ?_⟩
      simp only [mam_loop_output, List.mem_cons]
      right
      rw [List.mem_filterMap]
      refine ⟨i, by simpa using hi, ?_⟩
      rw [if_pos htot, if_pos ((one_lt_share_iff _ _ htot).2 hshare)]
  · simp [mam_loop_output, List.filterMap_eq_nil]

/-- C7 witness: with 3 total iterations and one opcode counted twice (a 66%
share), the emission criterion is strictly satisfied and the line appears. -/
theorem histogram_emission_policy_witness :
    (0 : ℕ) < ([2] : List ℕ).length ∧
    ((∃ c p, OutLine.opcodeLine 0 (opcode_names.getD 0 "") c p ∈ mam_loop_output 3 [2]) ↔
      (0 < 3 ∧ 3 < 100 * ([2] : List ℕ).getD 0 0)) :=
  ⟨by decide, (histogram_emission_policy 3 [2]).1 0 (by decide)⟩

/-- Exit facts of the backtracking-cursor loop: the final cursor is a suffix
of the initial one; either nothing moved or the final `prev` was overtaken by
`h`; and the loop stopped because `curr` caught up with `h` or the sequence
ran out. -/
lemma advanceBack_spec (h : ℕ) : ∀ (rem : List ℕ) (prev curr p' c' : ℕ) (rem' : List ℕ),
    advanceBack h prev curr rem = (p', c', rem') →
    ((p' :: c' :: rem') <:+ (prev :: curr :: rem)) ∧
    ((p' = prev ∧ c' = curr ∧ rem' = rem) ∨ p' < h) ∧
    (h ≤ c' ∨ rem' = []) := by
  intro rem
  induction rem with
  | nil =>
    intro prev curr p' c' rem' heq
    simp only [advanceBack, Prod.mk.injEq] at heq
    obtain ⟨h1, h2, h3⟩ := heq
    subst h1; subst h2; subst h3
    exact ⟨List.suffix_refl _, Or.inl ⟨rfl, rfl, rfl⟩, Or.inr rfl⟩
  | cons b rest ih =>
    intro prev curr p' c' rem' heq
    rw [advanceBack] at heq
    by_cases hch : curr < h
    · rw [if_pos hch] at heq
      obtain ⟨hsuf, hmid, hexit⟩ := ih curr b p' c' rem' heq
      refine ⟨hsuf.trans (List.suffix_cons _ _), ?_, hexit⟩
      rcases hmid with ⟨hp, _, _⟩ | hp
      · subst hp
        exact Or.inr hch
      · exact Or.inr hp
    · rw [if_neg hch] at heq
      simp only [Prod.mk.injEq] at heq
      obtain ⟨h1, h2, h3⟩ := heq
      subst h1; subst h2; subst h3
      exact ⟨List.suffix_refl _, Or.inl ⟨rfl, rfl, rfl⟩, Or.inl (le_of_not_lt hch)⟩

/-- If the mam cursor has consumed nothing by the end of an advance, it had
consumed nothing before it, and `mam_curr_node` is unchanged. -/
lemma advanceMam_none (h : ℕ) : ∀ (mrem : List (ℕ × ℚ)) (mc : ℕ) (ml : Option (ℕ × ℚ)),
    (advanceMam h mc ml mrem).2.1 = none →
    ml = none ∧ (advanceMam h mc ml mrem).1 = mc := by
  intro mrem
  induction mrem with
  | nil =>
    intro mc ml hn
    refine ⟨by simpa [advanceMam] using hn, by simp [advanceMam]⟩
  | cons e rest ih =>
    intro mc ml hn
    by_cases hch : mc < h
    · rw [advanceMam, if_pos hch] at hn
      have habs := (ih e.1 (some e) hn).1
      simp at habs
    · rw [advanceMam, if_neg hch] at hn
      rw [advanceMam, if_neg hch]
      exact ⟨hn, rfl⟩

/-- `nodeDists` distributes over append. -/
lemma nodeDists_append (l₁ l₂ : List OutLine) :
    nodeDists (l₁ ++ l₂) = nodeDists l₁ ++ nodeDists l₂ := by
  induction l₁ with
  | nil => simp [nodeDists]
  | cons a rest ih => cases a <;> simp [nodeDists, ih]

/-- The distance the main pass emits from an exited cursor position is a
nearest-neighbour signed distance over the whole (sorted) backtracking
sequence, with ties towards the successor. -/
lemma emit_nearest (B : List ℕ) (hB : B.Pairwise (· < ·)) (p c : ℕ) (rem : List ℕ)
    (hsuf : (p :: c :: rem) <:+ B) (h : ℕ)
    (hstart : B = p :: c :: rem ∨ p < h) (hexit : h ≤ c ∨ rem = []) :
    isNearestFront B h
      (if ((h : ℤ) - (p : ℤ)).natAbs < ((h : ℤ) - (c : ℤ)).natAbs
       then (h : ℤ) - (p : ℤ) else (h : ℤ) - (c : ℤ)) := by
  obtain ⟨pre, hpreB⟩ := hsuf
  have hBpw := hB
  rw [← hpreB, List.pairwise_append] at hBpw
  obtain ⟨hpre_pw, hsuf_pw, hcross⟩ := hBpw
  have hpc : p < c := (List.pairwise_cons.1 hsuf_pw).1 c (by simp)
  have hcrem : ∀ y ∈ rem, c < y :=
    (List.pairwise_cons.1 (List.pairwise_cons.1 hsuf_pw).2).1
  have hprelt : ∀ x ∈ pre, x < p := fun x hx => hcross x hx p (by simp)
  have hmemp : p ∈ B := by rw [← hpreB]; simp
  have hmemc : c ∈ B := by rw [← hpreB]; simp
  have hmemB : ∀ b ∈ B, b ∈ pre ∨ b = p ∨ b = c ∨ b ∈ rem := by
    intro b hb
    rw [← hpreB] at hb
    rcases List.mem_append.1 hb with hb | hb
    · exact Or.inl hb
    · rcases List.mem_cons.1 hb with hb | hb
      · exact Or.inr (Or.inl hb)
      · rcases List.mem_cons.1 hb with hb | hb
        · exact Or.inr (Or.inr (Or.inl hb))
        · exact Or.inr (Or.inr (Or.inr hb))
  have hkey : ∀ b ∈ pre, p < h := by
    intro b hbc
    rcases hstart with hst | hst
    · exfalso
      have hl := congrArg List.length (hpreB.trans hst)
      simp at hl
      rw [hl] at hbc
      simp at hbc
    · exact hst
  have hremc : ∀ b ∈ rem, h ≤ c := by
    intro b hbc
    rcases hexit with he | he
    · exact he
    · rw [he] at hbc
      simp at hbc
  refine ⟨?_, ?_, ?_⟩
  · split_ifs with hif
    · exact ⟨p, hmemp, rfl⟩
    · exact ⟨c, hmemc, rfl⟩
  · intro b hb
    rcases hmemB b hb with hbc | hbc | hbc | hbc
    · have hbp : b < p := hprelt b hbc
      have hph : p < h := hkey b hbc
      split_ifs with hif <;> omega
    · subst hbc
      split_ifs with hif <;> omega
    · subst hbc
      split_ifs with hif <;> omega
    · have hcb : c < b := hcrem b hbc
      have hhc : h ≤ c := hremc b hbc
      split_ifs with hif <;> omega
  · intro b hb
    rcases hmemB b hb with hbc | hbc | hbc | hbc
    · have hbp : b < p := hprelt b hbc
      have hph : p < h := hkey b hbc
      split_ifs with hif <;> intro htie <;> omega
    · subst hbc
      split_ifs with hif <;> intro htie <;> omega
    · subst hbc
      split_ifs with hif <;> intro htie <;> omega
    · have hcb : c < b := hcrem b hbc
      have hhc : h ≤ c := hremc b hbc
      split_ifs with hif <;> intro htie <;> omega

/-- Correctness of the main pass: from a cursor standing on two adjacent
backtracking nodes (with everything to its left already overtaken), the pass
succeeds on any strictly increasing, positive run of high-time nodes and
emits one line per node whose distance is the nearest-neighbour signed
distance (ties to the successor). -/
lemma corrLoop_ok (B : List ℕ) (hB : B.Pairwise (· < ·)) :
    ∀ (total : List (ℕ × ℚ)) (cu : CorrCursor),
      ((cu.prev :: cu.curr :: cu.backRem) <:+ B) →
      (B = cu.prev :: cu.curr :: cu.backRem ∨ ∀ e ∈ total, cu.prev < e.1) →
      (cu.mamLast = none → cu.mamCurr = 0) →
      ((total.map Prod.fst).Pairwise (· < ·)) →
      (∀ e ∈ total, 0 < e.1) →
      ∃ ls cnts, corrLoop cu total = some (ls, cnts) ∧
        (nodeDists ls).map (fun x => (x.1, x.2.2)) = total ∧
        ∀ x ∈ nodeDists ls, isNearestFront B x.1 x.2.1 := by
  intro total
  induction total with
  | nil =>
    intro cu _ _ _ _ _
    refine ⟨[], cu.counts, rfl, rfl, ?_⟩
    intro x hx
    simp [nodeDists] at hx
  | cons e rest ih =>
    intro cu hsuf hstart hminv hpw hpos
    obtain ⟨h, t⟩ := e
    rcases hab : advanceBack h cu.prev cu.curr cu.backRem with ⟨p', c', br'⟩
    rcases ham : advanceMam h cu.mamCurr cu.mamLast cu.mamRem with ⟨mc', ml', mr'⟩
    obtain ⟨hsuf2, hmid, hexit⟩ :=
      advanceBack_spec h cu.backRem cu.prev cu.curr p' c' br' hab
    have hsufB : (p' :: c' :: br') <:+ B := hsuf2.trans hsuf
    have hstart2 : B = p' :: c' :: br' ∨ p' < h := by
      rcases hmid with ⟨hp, hc, hr⟩ | hp
      · subst hp; subst hc; subst hr
        rcases hstart with hst | hst
        · exact Or.inl hst
        · exact Or.inr (hst (h, t) (by simp))
      · exact Or.inr hp
    have hnear := emit_nearest B hB p' c' br' hsufB h hstart2 hexit
    have hpw' : (h :: rest.map Prod.fst).Pairwise (· < ·) := by simpa using hpw
    have hminv2 : ml' = none → mc' = 0 := by
      intro hml
      have h0 := advanceMam_none h cu.mamRem cu.mamCurr cu.mamLast
      rw [ham] at h0
      obtain ⟨hl0, hc0⟩ := h0 (by simpa using hml)
      simp at hc0
      rw [hc0]
      exact hminv hl0
    have hstart3 : B = p' :: c' :: br' ∨ ∀ e2 ∈ rest, p' < e2.1 := by
      rcases hstart2 with hst | hst
      · exact Or.inl hst
      · right
        intro e2 he2
        have hlt : h < e2.1 :=
          (List.pairwise_cons.1 hpw').1 e2.1 (List.mem_map_of_mem Prod.fst he2)
        omega
    obtain ⟨ls, cnts, hcl, hmap, hnearAll⟩ :=
      ih ⟨p', c', br', mc', ml', mr',
          bumpCount cu.counts
            (if ((h : ℤ) - (p' : ℤ)).natAbs < ((h : ℤ) - (c' : ℤ)).natAbs
             then (h : ℤ) - (p' : ℤ) else (h : ℤ) - (c' : ℤ))⟩
        hsufB hstart3 hminv2 ((List.pairwise_cons.1 hpw').2)
        (fun e2 he2 => hpos e2 (by simp [he2]))
    simp only [corrLoop, hab, ham]
    by_cases hmc : mc' = h
    · rw [if_pos hmc]
      cases hmleq : ml' with
      | none =>
        exfalso
        have h0 : mc' = 0 := hminv2 hmleq
        have hp0 : 0 < h := hpos (h, t) (by simp)
        omega
      | some me =>
        rw [hmleq] at hcl
        rw [hcl]
        refine ⟨OutLine.nodeLine h
            (if ((h : ℤ) - (p' : ℤ)).natAbs < ((h : ℤ) - (c' : ℤ)).natAbs
             then (h : ℤ) - (p' : ℤ) else (h : ℤ) - (c' : ℤ)) t
            (some (me.2, me.2 / t)) :: ls, cnts, rfl, ?_, ?_⟩
        · simp only [nodeDists, List.map_cons, hmap]
        · intro x hx
          simp only [nodeDists, List.mem_cons] at hx
          rcases hx with hx | hx
          · subst hx
            exact hnear
          · exact hnearAll x hx
    · rw [if_neg hmc]
      rw [hcl]
      refine ⟨OutLine.nodeLine h
          (if ((h : ℤ) - (p' : ℤ)).natAbs < ((h : ℤ) - (c' : ℤ)).natAbs
           then (h : ℤ) - (p' : ℤ) else (h : ℤ) - (c' : ℤ)) t none :: ls, cnts, rfl, ?_, ?_⟩
      · simp only [nodeDists, List.map_cons, hmap]
      · intro x hx
        simp only [nodeDists, List.mem_cons] at hx
        rcases hx with hx | hx
        · subst hx
          exact hnear
        · exact hnearAll x hx

/-- C1 (amended): for every strictly increasing backtracking sequence
`b0 :: b1 :: brest` (so `|B| ≥ 2`) and every strictly increasing high-cost
sequence whose nodes are all nonzero, the correlation routine succeeds and
reports, for each high-cost node `h` in order, a signed distance `h - b` to a
nearest element `b` of `B` — matching a brute-force nearest-neighbour scan —
where a tie between the immediate predecessor and successor is resolved to
the successor (`front_dist`), not the predecessor.  (If node 0 is high-cost
the routine instead reads `mam_high_time_nodes[-1]`, out of bounds.) -/
theorem correlation_nearest_front (b0 b1 : ℕ) (brest : List ℕ)
    (total mam : List (ℕ × ℚ)) (cnt : ℕ)
    (hB : (b0 :: b1 :: brest).Pairwise (· < ·))
    (hH : (total.map Prod.fst).Pairwise (· < ·))
    (h0 : ∀ e ∈ total, 0 < e.1) :
    ∃ lines, high_time_backtracking_distance (b0 :: b1 :: brest) total mam cnt = some lines ∧
      (nodeDists lines).map (fun x => (x.1, x.2.2)) = total ∧
      ∀ x ∈ nodeDists lines, isNearestFront (b0 :: b1 :: brest) x.1 x.2.1 := by
  obtain ⟨ls, cnts, hcl, hmap, hnear⟩ :=
    corrLoop_ok (b0 :: b1 :: brest) hB total ⟨b0, b1, brest, 0, none, mam, []⟩
      (List.suffix_refl _) (Or.inl rfl) (fun _ => rfl) hH h0
  refine ⟨OutLine.header (b0 :: b1 :: brest).length mam.length cnt high_time_threshold ::
      (ls ++ [OutLine.minDistCounts cnts]), ?_, ?_, ?_⟩
  · simp only [high_time_backtracking_distance, List.isEmpty_cons, Bool.false_eq_true,
      if_false, hcl, List.nil_append]
  · simp only [nodeDists, nodeDists_append, List.append_nil, hmap]
  · intro x hx
    simp only [nodeDists, nodeDists_append, List.append_nil] at hx
    exact hnear x hx

/-- C1 counterexample: with `B = [10, 20]` and the single high-cost node 15,
the two absolute distances tie (both 5), and the routine reports the
successor distance `-5 = 15 - 20`, not the predecessor distance
`back_dist = 15 - 10 = +5` that the claim requires on ties. -/
theorem correlation_tie_counterexample :
    high_time_backtracking_distance [10, 20] [(15, 1)] [] 1 =
      some [OutLine.header 2 0 1 high_time_threshold,
            OutLine.nodeLine 15 (-5) 1 none,
            OutLine.minDistCounts [(-5, 1)]] ∧
    ((15 : ℤ) - 10).natAbs = ((15 : ℤ) - 20).natAbs ∧
    ((-5 : ℤ) ≠ (15 : ℤ) - 10) := ⟨rfl, rfl, by decide⟩

/-- C1 witness: the spec's own worked example `B = [10, 50, 120]`,
`H = [12, 45, 90]` (no ties), which the routine resolves to `[+2, -5, -30]`. -/
theorem correlation_nearest_front_witness :
    ∃ lines, high_time_backtracking_distance [10, 50, 120]
        [(12, 1), (45, 1), (90, 1)] [] 3 = some lines ∧
      (nodeDists lines).map (fun x => (x.1, x.2.2)) = [(12, 1), (45, 1), (90, 1)] ∧
      ∀ x ∈ nodeDists lines, isNearestFront [10, 50, 120] x.1 x.2.1 :=
  correlation_nearest_front 10 50 [120] [(12, 1), (45, 1), (90, 1)] [] 3
    (by decide) (by decide) (by decide)

/-- C2 (code bug): with exactly one backtracking node, the routine prints the
edge-case lines but then falls through — without returning — to the main
pass, whose initialisation unconditionally reads `backtracking_nodes[1]`
(`profiling.cpp` line 181), out of bounds for a one-element vector, instead
of reporting each high-cost node once against `B[0]` only.  On the claimed
example `B = [40]`, `H = [45, 100]` the run is undefined (`none`), not the
reports `[+5, +60]`. -/
theorem singleton_backtracking_out_of_bounds :
    high_time_backtracking_distance [40] [(45, 1), (100, 1)] [(45, 1), (100, 1)] 2 = none := rfl

/-- C3 (amended): with an empty backtracking sequence the routine returns
immediately — no crash — and emits nothing at all (there is no
"no backtracking observed" report anywhere in the code). -/
theorem empty_backtracking_no_output (total mam : List (ℕ × ℚ)) (cnt : ℕ) :
    high_time_backtracking_distance [] total mam cnt = some [] := rfl

/-- C3 counterexample: on `B = []` with a high-cost node present, the output
is `some []` — the run does not crash, but the report is empty, so in
particular no "no backtracking observed" line is emitted. -/
theorem empty_backtracking_counterexample :
    high_time_backtracking_distance [] [(5, 1)] [] 1 = some [] ∧
    ∀ l ∈ ([] : List OutLine), False := ⟨rfl, by simp⟩

end Z3Profiling
